import Mathlib

/-!
Verification development for the inkify repository: a shallow embedding of
its color conversion utilities (`src/inkify-js/src/lib/util.ts`), the
ANSI-fragment `Color` class (`src/unnamed/part_001`) and the `Style`
chain builder (`src/inkify-js/src/lib/style.ts`), together with theorems
settling the specification claims about them.

JavaScript numbers are modelled as exact rationals (`ℚ`), with the special
values `undefined` and `NaN` made explicit where the code can produce them.
All library call sites feed only integer-valued numbers (or `undefined`)
into the `Color` factories, so exact rational arithmetic is faithful on
every path a claim touches.
-/

/-- A JavaScript numeric value as it flows through the Color factories:
an actual number, `NaN` (e.g. from a failed `parseInt`), or `undefined`
(e.g. from destructuring a too-short array). Comparisons involving `NaN`
or `undefined` are false, exactly as in JavaScript. -/
inductive JNum where
  | num (q : ℚ)
  | nan
  | undef
deriving DecidableEq

/-- JavaScript `<` on the values reaching the factories: false whenever a
side is `NaN` or `undefined`. -/
def jlt : JNum → JNum → Bool
  | JNum.num a, JNum.num b => decide (a < b)
  | _, _ => false

/-- JavaScript `>` on the values reaching the factories: false whenever a
side is `NaN` or `undefined`. -/
def jgt : JNum → JNum → Bool
  | JNum.num a, JNum.num b => decide (a > b)
  | _, _ => false

/-- JavaScript template-literal stringification of the values the library
actually interpolates: integers print as decimal digits, `NaN` as "NaN",
`undefined` as "undefined". (Non-integral rationals never reach a template
literal on any path in the library; their printing is left as the `Rat`
representation.) -/
def jstr : JNum → String
  | JNum.num q => if q.den = 1 then toString q.num else toString q
  | JNum.nan => "NaN"
  | JNum.undef => "undefined"

/-- Value of a hexadecimal digit character, `none` for non-digits. -/
def hexDigitVal (c : Char) : Option ℕ :=
  if '0' ≤ c ∧ c ≤ '9' then some (c.toNat - 48)
  else if 'a' ≤ c ∧ c ≤ 'f' then some (c.toNat - 87)
  else if 'A' ≤ c ∧ c ≤ 'F' then some (c.toNat - 55)
  else none

/-- Whitespace skipped by JavaScript `parseInt`. -/
def jsSpace (c : Char) : Bool :=
  c = ' ' ∨ c = '\t' ∨ c = '\n' ∨ c = '\r' ∨ c = '\x0b' ∨ c = '\x0c'

/-- JavaScript `parseInt(s, 16)`: skip whitespace, optional sign, optional
`0x`/`0X` prefix, then the longest prefix of hex digits; `NaN` when no
digit is consumed. -/
def parseInt16 (s : List Char) : JNum :=
  let s1 := s.dropWhile jsSpace
  let sign : ℤ := if s1.head? = some '-' then -1 else 1
  let s2 := if s1.head? = some '-' ∨ s1.head? = some '+' then s1.tail else s1
  let s3 := match s2 with
    | '0' :: 'x' :: rest => rest
    | '0' :: 'X' :: rest => rest
    | _ => s2
  let ds := s3.takeWhile (fun c => (hexDigitVal c).isSome)
  if ds.isEmpty then JNum.nan
  else JNum.num ((sign * ds.foldl (fun acc c => 16 * acc + (((hexDigitVal c).getD 0 : ℕ) : ℤ)) (0 : ℤ) : ℤ) : ℚ)

/-- The regex metacharacter `.` (no `s` flag): any character except a line
terminator. -/
def dotMatch (c : Char) : Bool :=
  ¬ (c = '\n' ∨ c = '\r' ∨ c = '\u2028' ∨ c = '\u2029')

/-- Global matching of `/.{2}/g`: scan left to right, at each position try
to match two consecutive `.`-matchable characters, consuming two on
success and advancing one on failure; collect all matches. -/
def matchTwoGo : Option Char → List Char → List (List Char)
  | _, [] => []
  | none, c :: rest => matchTwoGo (some c) rest
  | some p, c :: rest =>
    if dotMatch p && dotMatch c then [p, c] :: matchTwoGo none rest
    else matchTwoGo (some c) rest

/-- Matching of `/.{2}/g` over a character list: `matchTwoGo` scans with
the pending pair-start character as state; a match consumes two
characters, a failure advances the position by one. -/
def matchTwoAux (l : List Char) : List (List Char) := matchTwoGo none l

/-- JavaScript array indexing on the factory arguments: `undefined` past
the end (this is what array destructuring of a short array yields). -/
def jAt (l : List JNum) (i : ℕ) : JNum := l.getD i JNum.undef

/-- Embedding of `hexToSVG` (util.ts 65-70):
`hex.slice(1)?.match(/.{2}/g)?.map((c) => parseInt(c, 16)) ?? [255,255,255]`.
`slice(1)` drops the first character; when the pair match returns null the
`??` fallback produces `[255, 255, 255]`, otherwise the matched pairs are
parsed as hex. -/
def hexToSVG (hex : String) : List JNum :=
  let ms := matchTwoAux (hex.toList.drop 1)
  if ms.isEmpty then [JNum.num 255, JNum.num 255, JNum.num 255]
  else ms.map parseInt16

/-- The `Color` class of `src/unnamed/part_001`: it stores only a partial
ANSI escape sequence string. -/
structure Color where
  ansi : String
deriving DecidableEq

/-- Embedding of `Color.fromRGB` (part_001 96-100): range-check each
channel with JavaScript comparisons (false on `undefined`/`NaN`), then
build the `8;2;r;g;b` fragment by template-literal interpolation. -/
def Color.fromRGB (red green blue : JNum) : Except String Color :=
  if jlt red (JNum.num 0) || jgt red (JNum.num 255) || jlt green (JNum.num 0) ||
      jgt green (JNum.num 255) || jlt blue (JNum.num 0) || jgt blue (JNum.num 255) then
    Except.error "RGB values must be between 0 and 255."
  else
    Except.ok ⟨"8;2;" ++ jstr red ++ ";" ++ jstr green ++ ";" ++ jstr blue⟩

/-- The test `/^[0-9a-fA-F]{6}$/g.test(hex)` of part_001 line 150: the
whole string is exactly six hexadecimal digits (note: no sigil in the
pattern). -/
def hexSixTest (hex : String) : Bool :=
  hex.toList.length = 6 && hex.toList.all (fun c => (hexDigitVal c).isSome)

/-- Embedding of `Color.fromHex` (part_001 149-161): reject unless the
whole string is six hex digits, then drop the first character, match
character pairs (white fallback when the match is null), parse them, and
destructure the first three elements (missing elements are `undefined`)
into `Color.fromRGB`. -/
def Color.fromHex (hex : String) : Except String Color :=
  if ¬ hexSixTest hex then Except.error "Invalid hex string."
  else
    let ms := matchTwoAux (hex.toList.drop 1)
    let arr := if ms.isEmpty then [JNum.num 255, JNum.num 255, JNum.num 255]
      else ms.map parseInt16
    Color.fromRGB (jAt arr 0) (jAt arr 1) (jAt arr 2)

/-- C1: the spec asserts that building a Color from "#ff5733" succeeds
with color-encoding suffix "8;2;255;87;51". The code instead throws
"Invalid hex string.": the validation regex `^[0-9a-fA-F]{6}$` omits the
sigil that the documented `#RRGGBB` format (and the subsequent `slice(1)`)
requires, so the documented input is rejected. -/
theorem fromHex_hash_ff5733_errors :
    Color.fromHex "#ff5733" = Except.error "Invalid hex string." := by
  rfl

/-- C2: the spec asserts `fromHex` errors exactly on strings that are not
a sigil followed by six hex digits, and never constructs a Color on
invalid input. The code instead accepts the bare six-digit string
"ff5733" (invalid per the spec), drops its first digit, and constructs
the malformed Color "8;2;245;115;undefined". -/
theorem fromHex_bare_ff5733_constructs :
    Color.fromHex "ff5733" = Except.ok ⟨"8;2;245;115;undefined"⟩ := by
  rfl

/-- C4: the spec asserts no Color with invalid channel data is ever
constructible. Yet the validated factory `fromRGB`, applied to the
arguments produced by `Color.fromHex "ff5733"` (third channel
`undefined`), accepts them, because JavaScript range comparisons against
`undefined` are false, and constructs a Color whose third channel is not
a number in [0, 255]. -/
theorem fromRGB_accepts_undefined :
    Color.fromRGB (JNum.num 245) (JNum.num 115) JNum.undef =
      Except.ok ⟨"8;2;245;115;undefined"⟩ := by
  rfl

/-- C3 counterexample: the spec says every malformed input makes
`hexToSVG` fall back to (255, 255, 255), but "#abc" is malformed (only
three hex digits) and yields the single-element array [171] instead: the
pair match succeeds once, so the null fallback never fires. -/
theorem hexToSVG_malformed_not_white :
    hexToSVG "#abc" ≠ [JNum.num 255, JNum.num 255, JNum.num 255] := by
  decide

/-- C3 amended: the white fallback fires exactly when the pair match
returns null; in particular every input with fewer than three characters
(hence fewer than two characters after the sigil is dropped) yields
(255, 255, 255). Malformed inputs long enough to contain a character pair
return the parsed pairs instead. -/
theorem hexToSVG_short_white (hex : String) (h : hex.toList.length < 3) :
    hexToSVG hex = [JNum.num 255, JNum.num 255, JNum.num 255] := by
  have hms : matchTwoAux (hex.toList.drop 1) = [] := by
    rcases hl : hex.toList with _ | ⟨a, _ | ⟨b, _ | ⟨c, t⟩⟩⟩
    · rfl
    · rfl
    · rfl
    · rw [hl] at h; simp only [List.length_cons] at h; omega
  simp only [hexToSVG, hms]
  rfl

/-- Witness for the amended C3 theorem at the concrete input "#f". -/
theorem hexToSVG_short_white_witness :
    hexToSVG "#f" = [JNum.num 255, JNum.num 255, JNum.num 255] :=
  hexToSVG_short_white "#f" (by decide)

/-- JavaScript `Math.trunc`-style rounding used by the `%` operator:
toward zero. -/
def jsTrunc (q : ℚ) : ℚ := if 0 ≤ q then ((⌊q⌋ : ℤ) : ℚ) else ((⌈q⌉ : ℤ) : ℚ)

/-- JavaScript remainder `a % b`: `a - b * trunc(a / b)` (the sign of the
dividend is kept). Every call site in the library has a nonzero divisor,
so the NaN case of `b = 0` never arises. -/
def jsMod (a b : ℚ) : ℚ := a - b * jsTrunc (a / b)

/-- Embedding of `rand` (util.ts 80-86, identically part_000 9-15): guard
clause returning the sentinel -1, short-circuit when the bounds agree,
otherwise `((floor(random * (max * seed - min)) + min) % (max - min)) + min`
with `r` standing for the `Math.random()` draw in [0, 1). -/
def rand (min max seed r : ℚ) : ℚ :=
  if min > max ∨ max < 0 ∨ min < 0 ∨ seed < 1 then -1
  else if max = min then min
  else jsMod (((⌊r * (max * seed - min)⌋ : ℤ) : ℚ) + min) (max - min) + min

/-- Embedding of `Color.random` (part_001 166-168): three independent
draws of `rand(0, 255)` with the default seed 14327 feed `fromRGB`;
`r1 r2 r3` stand for the three `Math.random()` draws. -/
def Color.random (r1 r2 r3 : ℚ) : Except String Color :=
  Color.fromRGB (JNum.num (rand 0 255 14327 r1)) (JNum.num (rand 0 255 14327 r2))
    (JNum.num (rand 0 255 14327 r3))

/-- The JavaScript remainder of a nonnegative dividend by a positive
divisor lies in [0, divisor). -/
lemma jsMod_nonneg_lt (a b : ℚ) (ha : 0 ≤ a) (hb : 0 < b) :
    0 ≤ jsMod a b ∧ jsMod a b < b := by
  have hq : 0 ≤ a / b := div_nonneg ha hb.le
  have htr : jsTrunc (a / b) = ((⌊a / b⌋ : ℤ) : ℚ) := if_pos hq
  constructor
  · have hfl : ((⌊a / b⌋ : ℤ) : ℚ) ≤ a / b := Int.floor_le (a / b)
    have : b * ((⌊a / b⌋ : ℤ) : ℚ) ≤ b * (a / b) := by
      exact mul_le_mul_of_nonneg_left hfl hb.le
    rw [jsMod, htr]
    rw [mul_div_cancel₀ a (ne_of_gt hb)] at this
    linarith
  · have hfl : a / b < ((⌊a / b⌋ : ℤ) : ℚ) + 1 := Int.lt_floor_add_one (a / b)
    have : b * (a / b) < b * (((⌊a / b⌋ : ℤ) : ℚ) + 1) := by
      exact mul_lt_mul_of_pos_left hfl hb
    rw [mul_div_cancel₀ a (ne_of_gt hb)] at this
    rw [jsMod, htr]
    nlinarith

/-- C7: the sentinel contract of `rand`. With equal bounds and the
preconditions satisfied the value `min` is returned; violating a
precondition (here `min > max`) yields the sentinel -1; and no call with
legal arguments (and a random draw in [0, 1)) can ever return -1. -/
theorem rand_sentinel_contract :
    (∀ mn se r : ℚ, 0 ≤ mn → 1 ≤ se → rand mn mn se r = mn) ∧
    (∀ r : ℚ, rand 10 5 1 r = -1) ∧
    (∀ mn mx se r : ℚ, mn ≤ mx → 0 ≤ mn → 0 ≤ mx → 1 ≤ se → 0 ≤ r → r < 1 →
      rand mn mx se r ≠ -1) := by
  refine ⟨?_, ?_, ?_⟩
  · intro mn se r h0 h1
    rw [rand, if_neg, if_pos rfl]
    push_neg
    exact ⟨le_refl mn, h0, h0, h1⟩
  · intro r
    rw [rand, if_pos]
    left
    norm_num
  · intro mn mx se r hle h0 h1 h2 hr0 hr1
    rw [rand, if_neg]
    · by_cases heq : mx = mn
      · rw [if_pos heq]
        intro hc
        rw [hc] at h0
        norm_num at h0
      · rw [if_neg heq]
        have hd : 0 < mx - mn := sub_pos.mpr (lt_of_le_of_ne hle (Ne.symm heq))
        have hfl : (0 : ℤ) ≤ ⌊r * (mx * se - mn)⌋ := by
          apply Int.floor_nonneg.mpr
          apply mul_nonneg hr0
          have : mx * 1 ≤ mx * se := mul_le_mul_of_nonneg_left h2 h1
          rw [mul_one] at this
          linarith
        have ha : (0 : ℚ) ≤ ((⌊r * (mx * se - mn)⌋ : ℤ) : ℚ) + mn := by
          have : (0 : ℚ) ≤ ((⌊r * (mx * se - mn)⌋ : ℤ) : ℚ) := by exact_mod_cast hfl
          linarith
        have hmod := jsMod_nonneg_lt (((⌊r * (mx * se - mn)⌋ : ℤ) : ℚ) + mn) (mx - mn) ha hd
        intro hc
        have h3 := hmod.1
        linarith
    · push_neg
      exact ⟨hle, h1, h0, h2⟩

/-- Witness for C7 at the concrete inputs of the specification:
`rand(5,5,1) = 5`, `rand(10,5,1) = -1`, and a legal call that cannot hit
the sentinel. -/
theorem rand_sentinel_contract_witness :
    rand 5 5 1 0 = 5 ∧ rand 10 5 1 0 = -1 ∧ rand 0 5 1 (1/2) ≠ -1 :=
  ⟨rand_sentinel_contract.1 5 1 0 (by norm_num) (by norm_num),
   rand_sentinel_contract.2.1 0,
   rand_sentinel_contract.2.2 0 5 1 (1/2) (by norm_num) (by norm_num) (by norm_num)
     (by norm_num) (by norm_num) (by norm_num)⟩

/-- The JavaScript remainder of a nonnegative integer by a positive
integer agrees with the mathematical (Euclidean) remainder. -/
lemma jsMod_intCast (k d : ℤ) (hk : 0 ≤ k) (hd : 0 < d) :
    jsMod (k : ℚ) (d : ℚ) = ((k % d : ℤ) : ℚ) := by
  have hq : (0 : ℚ) ≤ (k : ℚ) / (d : ℚ) :=
    div_nonneg (by exact_mod_cast hk) (by exact_mod_cast hd.le)
  have hdn : ((d.toNat : ℕ) : ℚ) = (d : ℚ) := by exact_mod_cast Int.toNat_of_nonneg hd.le
  have hfl : ⌊(k : ℚ) / (d : ℚ)⌋ = k / d := by
    rw [← hdn, Rat.floor_intCast_div_natCast, Int.toNat_of_nonneg hd.le]
  rw [jsMod, jsTrunc, if_pos hq, hfl, Int.emod_def]
  push_cast
  ring

/-- Closed form of `rand` on integer arguments with the guard clauses
discharged: the Euclidean remainder shifted by the lower bound. -/
lemma rand_int_closed (mi ma se : ℤ) (r : ℚ) (h0 : 0 ≤ mi) (h1 : mi < ma)
    (h2 : 1 ≤ se) (hr0 : 0 ≤ r) :
    rand (mi : ℚ) (ma : ℚ) (se : ℚ) r =
      (((⌊r * ((ma : ℚ) * (se : ℚ) - (mi : ℚ))⌋ + mi) % (ma - mi) : ℤ) : ℚ) + (mi : ℚ) := by
  have h1q : (mi : ℚ) < (ma : ℚ) := by exact_mod_cast h1
  have h0q : (0 : ℚ) ≤ (mi : ℚ) := by exact_mod_cast h0
  have h2q : (1 : ℚ) ≤ (se : ℚ) := by exact_mod_cast h2
  rw [rand, if_neg, if_neg]
  · have hfl : (0 : ℤ) ≤ ⌊r * ((ma : ℚ) * (se : ℚ) - (mi : ℚ))⌋ := by
      apply Int.floor_nonneg.mpr
      apply mul_nonneg hr0
      nlinarith
    have hcast : ((⌊r * ((ma : ℚ) * (se : ℚ) - (mi : ℚ))⌋ : ℤ) : ℚ) + (mi : ℚ) =
        (((⌊r * ((ma : ℚ) * (se : ℚ) - (mi : ℚ))⌋ + mi : ℤ)) : ℚ) := by push_cast; ring
    have hdcast : (ma : ℚ) - (mi : ℚ) = ((ma - mi : ℤ) : ℚ) := by push_cast; ring
    rw [hcast, hdcast, jsMod_intCast]
    · omega
    · omega
  · intro hc
    have : (ma : ℚ) ≠ (mi : ℚ) := by exact_mod_cast (by omega : ma ≠ mi)
    exact this hc
  · push_neg
    exact ⟨h1q.le, h0q.trans h1q.le, h0q, h2q⟩

/-- C10: on integer arguments with `0 ≤ min < max` and `seed ≥ 1`, for
every random draw in [0, 1) the result of `rand` lies in
[min, max - 1] — the upper bound `max` is never returned; hence
`rand(0, 1, seed)` is always 0, and a channel drawn by `Color.random`
(which is `rand(0, 255, 14327)` by definition) never equals 255. -/
theorem rand_upper_bound_exclusive :
    (∀ (mi ma se : ℤ) (r : ℚ), 0 ≤ mi → mi < ma → 1 ≤ se → 0 ≤ r → r < 1 →
      (mi : ℚ) ≤ rand (mi : ℚ) (ma : ℚ) (se : ℚ) r ∧
        rand (mi : ℚ) (ma : ℚ) (se : ℚ) r ≤ (ma : ℚ) - 1) ∧
    (∀ (se : ℤ) (r : ℚ), 1 ≤ se → 0 ≤ r → r < 1 → rand 0 1 (se : ℚ) r = 0) ∧
    (∀ r : ℚ, 0 ≤ r → r < 1 → rand 0 255 14327 r ≠ 255) := by
  have main : ∀ (mi ma se : ℤ) (r : ℚ), 0 ≤ mi → mi < ma → 1 ≤ se → 0 ≤ r → r < 1 →
      (mi : ℚ) ≤ rand (mi : ℚ) (ma : ℚ) (se : ℚ) r ∧
        rand (mi : ℚ) (ma : ℚ) (se : ℚ) r ≤ (ma : ℚ) - 1 := by
    intro mi ma se r h0 h1 h2 hr0 hr1
    rw [rand_int_closed mi ma se r h0 h1 h2 hr0]
    set k := ⌊r * ((ma : ℚ) * (se : ℚ) - (mi : ℚ))⌋ + mi with hk
    have hd : (0 : ℤ) < ma - mi := by omega
    have hle : 0 ≤ k % (ma - mi) := Int.emod_nonneg k (by omega)
    have hlt : k % (ma - mi) < ma - mi := Int.emod_lt_of_pos k hd
    constructor
    · have : (0 : ℚ) ≤ ((k % (ma - mi) : ℤ) : ℚ) := by exact_mod_cast hle
      linarith
    · have : ((k % (ma - mi) : ℤ) : ℚ) ≤ ((ma - mi - 1 : ℤ) : ℚ) := by
        exact_mod_cast (by omega : k % (ma - mi) ≤ ma - mi - 1)
      push_cast at this
      linarith
  refine ⟨main, ?_, ?_⟩
  · intro se r h2 hr0 hr1
    have h := rand_int_closed 0 1 se r (by omega) (by omega) h2 hr0
    push_cast at h
    rw [h]
    simp [Int.emod_one]
  · intro r hr0 hr1
    have h := main 0 255 14327 r (by omega) (by omega) (by omega) hr0 hr1
    push_cast at h
    intro hc
    rw [hc] at h
    linarith [h.2]

/-- Witness for C10 at concrete inputs: the channel draw
`rand(0, 255, 14327)` at random value one half stays within [0, 254], the
call `rand(0, 1, 1)` at random value one half returns 0, and the channel
draw never equals 255 there. -/
theorem rand_upper_bound_exclusive_witness :
    (((0 : ℤ) : ℚ) ≤ rand ((0 : ℤ) : ℚ) ((255 : ℤ) : ℚ) ((14327 : ℤ) : ℚ) (1/2) ∧
      rand ((0 : ℤ) : ℚ) ((255 : ℤ) : ℚ) ((14327 : ℤ) : ℚ) (1/2) ≤ ((255 : ℤ) : ℚ) - 1) ∧
    rand 0 1 ((1 : ℤ) : ℚ) (1/2) = 0 ∧
    rand 0 255 14327 (1/2) ≠ 255 :=
  ⟨rand_upper_bound_exclusive.1 0 255 14327 (1/2) (by norm_num) (by norm_num) (by norm_num)
      (by norm_num) (by norm_num),
   rand_upper_bound_exclusive.2.1 1 (1/2) (by norm_num) (by norm_num) (by norm_num),
   rand_upper_bound_exclusive.2.2 (1/2) (by norm_num) (by norm_num)⟩

/-- JavaScript `Math.round`: nearest integer, halves toward positive
infinity. -/
def jround (q : ℚ) : ℤ := ⌊q + 1 / 2⌋

/-- Embedding of `hslToRgb` (util.ts 9-28): normalize s and l to [0, 1],
compute chroma, intermediate x and offset m, select the sector triple by
the cascaded hue comparisons, and round each offset channel scaled by
255. -/
def hslToRgb (h s l : ℚ) : ℤ × ℤ × ℤ :=
  let s1 := s / 100
  let l1 := l / 100
  let c := (1 - |2 * l1 - 1|) * s1
  let x := c * (1 - |jsMod (h / 60) 2 - 1|)
  let m := l1 - c / 2
  let t :=
    if h < 60 then (c, x, (0 : ℚ))
    else if h < 120 then (x, c, 0)
    else if h < 180 then (0, c, x)
    else if h < 240 then (0, x, c)
    else if h < 300 then (x, 0, c)
    else (c, 0, x)
  (jround ((t.1 + m) * 255), jround ((t.2.1 + m) * 255), jround ((t.2.2 + m) * 255))

/-- Embedding of `hsvToRgb` (util.ts 38-57): as `hslToRgb` but with
chroma `v * s` and offset `v - c`. -/
def hsvToRgb (h s v : ℚ) : ℤ × ℤ × ℤ :=
  let s1 := s / 100
  let v1 := v / 100
  let c := v1 * s1
  let x := c * (1 - |jsMod (h / 60) 2 - 1|)
  let m := v1 - c
  let t :=
    if h < 60 then (c, x, (0 : ℚ))
    else if h < 120 then (x, c, 0)
    else if h < 180 then (0, c, x)
    else if h < 240 then (0, x, c)
    else if h < 300 then (x, 0, c)
    else (c, 0, x)
  (jround ((t.1 + m) * 255), jround ((t.2.1 + m) * 255), jround ((t.2.2 + m) * 255))

/-- The mathematical `mod 2` the specification refers to (the remainder
in [0, 2) for the nonnegative hues of the domain). -/
def specMod2 (a : ℚ) : ℚ := a - 2 * ((⌊a / 2⌋ : ℤ) : ℚ)

/-- The rounding the specification words as rounding to the nearest
integer in [0, 255]. -/
def specRound255 (q : ℚ) : ℤ := min 255 (max 0 (round q))

/-- The HSL to RGB conversion exactly as the specification section 4.1
words it: chroma from the normalized values, intermediate x through
`(h/60) mod 2`, offset m, the six 60-degree sectors in the fixed order,
offset added to each channel and rounded to the nearest integer in
[0, 255]. -/
def hslToRgbSpec (h s l : ℚ) : ℤ × ℤ × ℤ :=
  let s1 := s / 100
  let l1 := l / 100
  let c := (1 - |2 * l1 - 1|) * s1
  let x := c * (1 - |specMod2 (h / 60) - 1|)
  let m := l1 - c / 2
  let t :=
    if h < 60 then (c, x, (0 : ℚ))
    else if h < 120 then (x, c, 0)
    else if h < 180 then (0, c, x)
    else if h < 240 then (0, x, c)
    else if h < 300 then (x, 0, c)
    else (c, 0, x)
  (specRound255 ((t.1 + m) * 255), specRound255 ((t.2.1 + m) * 255),
    specRound255 ((t.2.2 + m) * 255))

/-- The HSV to RGB conversion as the specification words it: the same
sector logic with chroma `v * s` and offset `v - c`. -/
def hsvToRgbSpec (h s v : ℚ) : ℤ × ℤ × ℤ :=
  let s1 := s / 100
  let v1 := v / 100
  let c := v1 * s1
  let x := c * (1 - |specMod2 (h / 60) - 1|)
  let m := v1 - c
  let t :=
    if h < 60 then (c, x, (0 : ℚ))
    else if h < 120 then (x, c, 0)
    else if h < 180 then (0, c, x)
    else if h < 240 then (0, x, c)
    else if h < 300 then (x, 0, c)
    else (c, 0, x)
  (specRound255 ((t.1 + m) * 255), specRound255 ((t.2.1 + m) * 255),
    specRound255 ((t.2.2 + m) * 255))

/-- On nonnegative arguments the JavaScript remainder by two is the
mathematical remainder. -/
lemma jsMod_two_specMod2 (a : ℚ) (ha : 0 ≤ a) : jsMod a 2 = specMod2 a := by
  rw [jsMod, specMod2, jsTrunc, if_pos (by positivity : (0 : ℚ) ≤ a / 2)]

/-- For a value already inside [0, 255] the clamped nearest-integer
rounding of the specification agrees with `Math.round`. -/
lemma jround_in_range (q : ℚ) (h0 : 0 ≤ q) (h1 : q ≤ 255) : specRound255 q = jround q := by
  have hl : (0 : ℤ) ≤ ⌊q + 1 / 2⌋ := Int.floor_nonneg.mpr (by linarith)
  have hfl : ((⌊q + 1 / 2⌋ : ℤ) : ℚ) ≤ q + 1 / 2 := Int.floor_le _
  have hu : ⌊q + 1 / 2⌋ < 256 := by
    have h256 : ((⌊q + 1 / 2⌋ : ℤ) : ℚ) < 256 := by linarith
    exact_mod_cast h256
  rw [specRound255, round_eq, jround, max_eq_right hl, min_eq_right (by omega)]

/-- A channel whose pre-offset value plus offset lies in [0, 1] rounds
identically under `Math.round` and under the clamped spec rounding. -/
lemma sector_round_eq (v m : ℚ) (h0 : 0 ≤ v + m) (h1 : v + m ≤ 1) :
    jround ((v + m) * 255) = specRound255 ((v + m) * 255) := by
  have e0 : (0 : ℚ) ≤ (v + m) * 255 := by nlinarith
  have e1 : (v + m) * 255 ≤ 255 := by nlinarith
  exact (jround_in_range _ e0 e1).symm

/-- In the HSL algorithm every pre-offset channel value v in [0, chroma]
gives an offset channel v + m inside [0, 1]. -/
lemma hsl_channel_bounds (s l v : ℚ) (hs0 : 0 ≤ s) (hs1 : s ≤ 1) (hl0 : 0 ≤ l)
    (hl1 : l ≤ 1) (hv0 : 0 ≤ v) (hvc : v ≤ (1 - |2 * l - 1|) * s) :
    0 ≤ v + (l - (1 - |2 * l - 1|) * s / 2) ∧
      v + (l - (1 - |2 * l - 1|) * s / 2) ≤ 1 := by
  rcases abs_cases (2 * l - 1) with ⟨he, hsg⟩ | ⟨he, hsg⟩ <;> rw [he] at hvc ⊢ <;>
    constructor <;>
      nlinarith [mul_nonneg hl0 (by linarith : (0 : ℚ) ≤ 1 - s),
        mul_nonneg (by linarith : (0 : ℚ) ≤ 2 - 2 * l) (by linarith : (0 : ℚ) ≤ 1 - s),
        mul_nonneg hs0 hl0]

/-- In the HSV algorithm every pre-offset channel value w in [0, chroma]
gives an offset channel w + m inside [0, 1]. -/
lemma hsv_channel_bounds (s v w : ℚ) (hs0 : 0 ≤ s) (hs1 : s ≤ 1) (hv0 : 0 ≤ v)
    (hv1 : v ≤ 1) (hw0 : 0 ≤ w) (hwc : w ≤ v * s) :
    0 ≤ w + (v - v * s) ∧ w + (v - v * s) ≤ 1 := by
  constructor <;> nlinarith [mul_nonneg hv0 (by linarith : (0 : ℚ) ≤ 1 - s)]

/-- C5: on the documented domain `hslToRgb` coincides with the standard
six-sector algorithm of the specification (chroma, intermediate x via
`(h/60) mod 2`, offset m, sectors in the fixed order, nearest-integer
rounding into [0, 255]); in particular full-saturation half-lightness
red, green and blue hues map to the pure RGB primaries. -/
theorem hslToRgb_follows_spec :
    (∀ h s l : ℚ, 0 ≤ h → h < 360 → 0 ≤ s → s ≤ 100 → 0 ≤ l → l ≤ 100 →
      hslToRgb h s l = hslToRgbSpec h s l) ∧
    hslToRgb 0 100 50 = (255, 0, 0) ∧ hslToRgb 120 100 50 = (0, 255, 0) ∧
    hslToRgb 240 100 50 = (0, 0, 255) := by
  refine ⟨?_, ?_, ?_, ?_⟩
  · intro h s l hh0 hh1 hs0 hs1 hl0 hl1
    have hsn0 : (0 : ℚ) ≤ s / 100 := by positivity
    have hsn1 : s / 100 ≤ 1 := by linarith
    have hln0 : (0 : ℚ) ≤ l / 100 := by positivity
    have hln1 : l / 100 ≤ 1 := by linarith
    have hmod := jsMod_nonneg_lt (h / 60) 2 (by positivity) (by norm_num)
    have hmeq : jsMod (h / 60) 2 = specMod2 (h / 60) :=
      jsMod_two_specMod2 (h / 60) (by positivity)
    have habs1 : |2 * (l / 100) - 1| ≤ 1 := abs_le.mpr ⟨by linarith, by linarith⟩
    have hc0 : (0 : ℚ) ≤ (1 - |2 * (l / 100) - 1|) * (s / 100) :=
      mul_nonneg (by linarith [abs_le.mp habs1]) hsn0
    have habsf : |specMod2 (h / 60) - 1| ≤ 1 := by
      rw [← hmeq]
      exact abs_le.mpr ⟨by linarith [hmod.1], by linarith [hmod.2]⟩
    have hf0 : (0 : ℚ) ≤ 1 - |specMod2 (h / 60) - 1| := by linarith
    have hx0 : (0 : ℚ) ≤ (1 - |2 * (l / 100) - 1|) * (s / 100) *
        (1 - |specMod2 (h / 60) - 1|) := mul_nonneg hc0 hf0
    have hxc : (1 - |2 * (l / 100) - 1|) * (s / 100) * (1 - |specMod2 (h / 60) - 1|) ≤
        (1 - |2 * (l / 100) - 1|) * (s / 100) := by
      nlinarith [abs_nonneg (specMod2 (h / 60) - 1)]
    have hcb := hsl_channel_bounds (s / 100) (l / 100)
      ((1 - |2 * (l / 100) - 1|) * (s / 100)) hsn0 hsn1 hln0 hln1 hc0 (le_refl _)
    have hxb := hsl_channel_bounds (s / 100) (l / 100)
      ((1 - |2 * (l / 100) - 1|) * (s / 100) * (1 - |specMod2 (h / 60) - 1|))
      hsn0 hsn1 hln0 hln1 hx0 hxc
    have hzb := hsl_channel_bounds (s / 100) (l / 100) 0 hsn0 hsn1 hln0 hln1
      (le_refl 0) hc0
    simp only [hslToRgb, hslToRgbSpec, hmeq]
    split_ifs <;> simp only [Prod.mk.injEq] <;>
      refine ⟨?_, ?_, ?_⟩ <;> apply sector_round_eq <;>
        first
          | exact hcb.1
          | exact hcb.2
          | exact hxb.1
          | exact hxb.2
          | exact hzb.1
          | exact hzb.2
  · norm_num [hslToRgb, jsMod, jsTrunc, jround, abs_zero, abs_neg, abs_one]
  · norm_num [hslToRgb, jsMod, jsTrunc, jround, abs_zero, abs_neg, abs_one]
  · norm_num [hslToRgb, jsMod, jsTrunc, jround, abs_zero, abs_neg, abs_one]

/-- Witness for C5: the general agreement theorem applied at the concrete
input (0, 100, 50). -/
theorem hslToRgb_follows_spec_witness :
    hslToRgb 0 100 50 = hslToRgbSpec 0 100 50 :=
  hslToRgb_follows_spec.1 0 100 50 (by norm_num) (by norm_num) (by norm_num)
    (by norm_num) (by norm_num) (by norm_num)

/-- C6: on the documented domain `hsvToRgb` follows the same six-sector
algorithm with chroma `v * s` and offset `v - c`; in particular
`hsvToRgb(0, 100, 100) = (255, 0, 0)`. -/
theorem hsvToRgb_follows_spec :
    (∀ h s v : ℚ, 0 ≤ h → h < 360 → 0 ≤ s → s ≤ 100 → 0 ≤ v → v ≤ 100 →
      hsvToRgb h s v = hsvToRgbSpec h s v) ∧
    hsvToRgb 0 100 100 = (255, 0, 0) := by
  refine ⟨?_, ?_⟩
  · intro h s v hh0 hh1 hs0 hs1 hv0 hv1
    have hsn0 : (0 : ℚ) ≤ s / 100 := by positivity
    have hsn1 : s / 100 ≤ 1 := by linarith
    have hvn0 : (0 : ℚ) ≤ v / 100 := by positivity
    have hvn1 : v / 100 ≤ 1 := by linarith
    have hmod := jsMod_nonneg_lt (h / 60) 2 (by positivity) (by norm_num)
    have hmeq : jsMod (h / 60) 2 = specMod2 (h / 60) :=
      jsMod_two_specMod2 (h / 60) (by positivity)
    have hc0 : (0 : ℚ) ≤ v / 100 * (s / 100) := mul_nonneg hvn0 hsn0
    have habsf : |specMod2 (h / 60) - 1| ≤ 1 := by
      rw [← hmeq]
      exact abs_le.mpr ⟨by linarith [hmod.1], by linarith [hmod.2]⟩
    have hf0 : (0 : ℚ) ≤ 1 - |specMod2 (h / 60) - 1| := by linarith
    have hx0 : (0 : ℚ) ≤ v / 100 * (s / 100) * (1 - |specMod2 (h / 60) - 1|) :=
      mul_nonneg hc0 hf0
    have hxc : v / 100 * (s / 100) * (1 - |specMod2 (h / 60) - 1|) ≤
        v / 100 * (s / 100) := by
      nlinarith [abs_nonneg (specMod2 (h / 60) - 1)]
    have hcb := hsv_channel_bounds (s / 100) (v / 100) (v / 100 * (s / 100))
      hsn0 hsn1 hvn0 hvn1 hc0 (le_refl _)
    have hxb := hsv_channel_bounds (s / 100) (v / 100)
      (v / 100 * (s / 100) * (1 - |specMod2 (h / 60) - 1|)) hsn0 hsn1 hvn0 hvn1 hx0 hxc
    have hzb := hsv_channel_bounds (s / 100) (v / 100) 0 hsn0 hsn1 hvn0 hvn1
      (le_refl 0) hc0
    simp only [hsvToRgb, hsvToRgbSpec, hmeq]
    split_ifs <;> simp only [Prod.mk.injEq] <;>
      refine ⟨?_, ?_, ?_⟩ <;> apply sector_round_eq <;>
        first
          | exact hcb.1
          | exact hcb.2
          | exact hxb.1
          | exact hxb.2
          | exact hzb.1
          | exact hzb.2
  · norm_num [hsvToRgb, jsMod, jsTrunc, jround, abs_zero, abs_neg, abs_one]

/-- Witness for C6: the general agreement theorem applied at the concrete
input (0, 100, 100). -/
theorem hsvToRgb_follows_spec_witness :
    hsvToRgb 0 100 100 = hsvToRgbSpec 0 100 100 :=
  hsvToRgb_follows_spec.1 0 100 100 (by norm_num) (by norm_num) (by norm_num)
    (by norm_num) (by norm_num) (by norm_num)

/-- The JavaScript heap backing Style instances: each Style owns one
string-array cell holding its private `_chain`. -/
abbrev Store := List (List String)

/-- A reference to a Style instance: the index of its backing `_chain`
array in the store. -/
structure StyleRef where
  idx : ℕ
deriving DecidableEq

/-- Appending a fresh cell leaves every existing index unchanged. -/
lemma listGetD_append {α : Type} (l : List α) (a d : α) (i : ℕ) (h : i < l.length) :
    (l ++ [a]).getD i d = l.getD i d := by
  induction l generalizing i with
  | nil => simp at h
  | cons x xs ih =>
    cases i with
    | zero => rfl
    | succ n => exact ih n (by simpa using h)

/-- Reading the freshly appended cell returns its content. -/
lemma listGetD_concat_self {α : Type} (l : List α) (a d : α) :
    (l ++ [a]).getD l.length d = a := by
  induction l with
  | nil => rfl
  | cons x xs ih => exact ih

/-- Reading an in-place updated cell returns the new content. -/
lemma listGetD_set_self {α : Type} (l : List α) (v d : α) (i : ℕ) (h : i < l.length) :
    (l.set i v).getD i d = v := by
  induction l generalizing i with
  | nil => simp at h
  | cons x xs ih =>
    cases i with
    | zero => rfl
    | succ n => exact ih n (by simpa using h)

/-- Updating one cell in place leaves every other index unchanged. -/
lemma listGetD_set_ne {α : Type} (l : List α) (v d : α) (i j : ℕ) (h : i ≠ j) :
    (l.set i v).getD j d = l.getD j d := by
  induction l generalizing i j with
  | nil => rfl
  | cons x xs ih =>
    cases i with
    | zero =>
      cases j with
      | zero => exact absurd rfl h
      | succ m => rfl
    | succ n =>
      cases j with
      | zero => rfl
      | succ m => exact ih n m (fun he => h (by rw [he]))

/-- Read the `_chain` array of a Style instance. -/
def getChain (σ : Store) (p : StyleRef) : List String := σ.getD p.idx []

/-- `this._chain.push(f)`: mutate the referenced array in place, as every
chaining method of style.ts does. -/
def pushFrag (σ : Store) (p : StyleRef) (f : String) : Store :=
  σ.set p.idx (getChain σ p ++ [f])

/-- `new Style()` (style.ts 36-38, no argument): allocate a fresh empty
chain. -/
def newStyle (σ : Store) : Store × StyleRef := (σ ++ [[]], ⟨σ.length⟩)

/-- `new Style(style)` (style.ts 36-38): allocate a fresh array holding a
copy of the source chain — the spread `[...style._chain]` of line 37. -/
def newStyleFrom (σ : Store) (p : StyleRef) : Store × StyleRef :=
  (σ ++ [getChain σ p], ⟨σ.length⟩)

/-- `Style.RESET` (style.ts 27-29). -/
def Style.RESET : String := "\x1b[0m"

/-- `light()` (style.ts 45-48). -/
def Style.light (σ : Store) (p : StyleRef) : Store × StyleRef :=
  (pushFrag σ p "\x1b[2m", p)

/-- `normal()` (style.ts 55-58). -/
def Style.normal (σ : Store) (p : StyleRef) : Store × StyleRef :=
  (pushFrag σ p "\x1b[22m", p)

/-- `bold()` (style.ts 65-68). -/
def Style.bold (σ : Store) (p : StyleRef) : Store × StyleRef :=
  (pushFrag σ p "\x1b[1m", p)

/-- `italic()` (style.ts 75-78). -/
def Style.italic (σ : Store) (p : StyleRef) : Store × StyleRef :=
  (pushFrag σ p "\x1b[3m", p)

/-- `underline()` (style.ts 86-89). -/
def Style.underline (σ : Store) (p : StyleRef) : Store × StyleRef :=
  (pushFrag σ p "\x1b[4m", p)

/-- `overline()` (style.ts 97-100). -/
def Style.overline (σ : Store) (p : StyleRef) : Store × StyleRef :=
  (pushFrag σ p "\x1b[53m", p)

/-- `strikethrough()` (style.ts 108-111). -/
def Style.strikethrough (σ : Store) (p : StyleRef) : Store × StyleRef :=
  (pushFrag σ p "\x1b[9m", p)

/-- `hide()` (style.ts 118-121). -/
def Style.hide (σ : Store) (p : StyleRef) : Store × StyleRef :=
  (pushFrag σ p "\x1b[8m", p)

/-- `invert()` (style.ts 180-183). -/
def Style.invert (σ : Store) (p : StyleRef) : Store × StyleRef :=
  (pushFrag σ p "\x1b[7m", p)

/-- `foreground(color)` (style.ts 129-132): selector digit 3 before the
color suffix. -/
def Style.foreground (σ : Store) (p : StyleRef) (c : Color) : Store × StyleRef :=
  (pushFrag σ p ("\x1b[3" ++ c.ansi ++ "m"), p)

/-- `background(color)` (style.ts 160-163): selector digit 4 before the
color suffix. -/
def Style.background (σ : Store) (p : StyleRef) (c : Color) : Store × StyleRef :=
  (pushFrag σ p ("\x1b[4" ++ c.ansi ++ "m"), p)

/-- Modelled from the spec: the source under src contains no render or
toString member on Style; section 4.3 specifies rendering as the
concatenation of all fragments in sequence order with no separator. -/
def render (σ : Store) (p : StyleRef) : String := String.join (getChain σ p)

/-- Joining a chain extended by one fragment appends that fragment to the
joined string. -/
lemma join_append_singleton (l : List String) (s : String) :
    String.join (l ++ [s]) = String.join l ++ s := by
  simp [String.join, List.foldl_append]

/-- Pushing a fragment onto a valid Style appends it to that chain. -/
lemma getChain_pushFrag (σ : Store) (p : StyleRef) (f : String) (h : p.idx < σ.length) :
    getChain (pushFrag σ p f) p = getChain σ p ++ [f] :=
  listGetD_set_self σ (getChain σ p ++ [f]) [] p.idx h

/-- C8: every attribute method of a valid Style pushes exactly its fixed
SGR fragment from the fragment table onto the chain (and returns the same
instance), and the chain built by `new Style().bold().underline()`
renders to the bold fragment followed by the underline fragment with no
separator. -/
theorem style_methods_append :
    (∀ (σ : Store) (p : StyleRef), p.idx < σ.length →
      getChain (Style.light σ p).1 (Style.light σ p).2 = getChain σ p ++ ["\x1b[2m"] ∧
      getChain (Style.normal σ p).1 (Style.normal σ p).2 = getChain σ p ++ ["\x1b[22m"] ∧
      getChain (Style.bold σ p).1 (Style.bold σ p).2 = getChain σ p ++ ["\x1b[1m"] ∧
      getChain (Style.italic σ p).1 (Style.italic σ p).2 = getChain σ p ++ ["\x1b[3m"] ∧
      getChain (Style.underline σ p).1 (Style.underline σ p).2 =
        getChain σ p ++ ["\x1b[4m"] ∧
      getChain (Style.overline σ p).1 (Style.overline σ p).2 =
        getChain σ p ++ ["\x1b[53m"] ∧
      getChain (Style.strikethrough σ p).1 (Style.strikethrough σ p).2 =
        getChain σ p ++ ["\x1b[9m"] ∧
      getChain (Style.hide σ p).1 (Style.hide σ p).2 = getChain σ p ++ ["\x1b[8m"] ∧
      getChain (Style.invert σ p).1 (Style.invert σ p).2 = getChain σ p ++ ["\x1b[7m"]) ∧
    (let s0 := newStyle []
     let s1 := Style.bold s0.1 s0.2
     let s2 := Style.underline s1.1 s1.2
     render s2.1 s2.2 = "\x1b[1m\x1b[4m") := by
  constructor
  · intro σ p h
    refine ⟨?_, ?_, ?_, ?_, ?_, ?_, ?_, ?_, ?_⟩ <;> exact getChain_pushFrag σ p _ h
  · rfl

/-- Witness for C8: the bold method applied to a concrete one-style store
appends exactly the bold fragment. -/
theorem style_methods_append_witness :
    getChain (Style.bold [[]] ⟨0⟩).1 (Style.bold [[]] ⟨0⟩).2 =
      getChain [[]] ⟨0⟩ ++ ["\x1b[1m"] :=
  (style_methods_append.1 [[]] ⟨0⟩ (by decide)).2.2.1

/-- C9: the copy constructor deep-copies the fragment chain: appending
italic to the copy renders as the original render followed by the italic
fragment, while the original chain and render are unchanged — there is no
shared backing storage. -/
theorem style_copy_deep (σ : Store) (p : StyleRef) (h : p.idx < σ.length) :
    render (Style.italic (newStyleFrom σ p).1 (newStyleFrom σ p).2).1
        (Style.italic (newStyleFrom σ p).1 (newStyleFrom σ p).2).2 =
      render σ p ++ "\x1b[3m" ∧
    getChain (Style.italic (newStyleFrom σ p).1 (newStyleFrom σ p).2).1 p =
      getChain σ p ∧
    render (Style.italic (newStyleFrom σ p).1 (newStyleFrom σ p).2).1 p = render σ p := by
  have hq : getChain (σ ++ [getChain σ p]) ⟨σ.length⟩ = getChain σ p :=
    listGetD_concat_self σ (getChain σ p) []
  have hlen : (σ ++ [getChain σ p]).length = σ.length + 1 := by simp
  have hcopy : getChain (Style.italic (newStyleFrom σ p).1 (newStyleFrom σ p).2).1
      (newStyleFrom σ p).2 = getChain σ p ++ ["\x1b[3m"] := by
    show getChain (pushFrag (σ ++ [getChain σ p]) ⟨σ.length⟩ "\x1b[3m") ⟨σ.length⟩ = _
    rw [getChain_pushFrag (σ ++ [getChain σ p]) ⟨σ.length⟩ "\x1b[3m" (by simp), hq]
  have horig : getChain (Style.italic (newStyleFrom σ p).1 (newStyleFrom σ p).2).1 p =
      getChain σ p := by
    show getChain (pushFrag (σ ++ [getChain σ p]) ⟨σ.length⟩ "\x1b[3m") p = _
    rw [pushFrag, getChain]
    rw [listGetD_set_ne _ _ _ _ _ (by intro he; simp at he; omega)]
    exact listGetD_append σ (getChain σ p) [] p.idx h
  refine ⟨?_, horig, ?_⟩
  · show String.join (getChain _ (newStyleFrom σ p).2) = _
    rw [hcopy, join_append_singleton]
    rfl
  · show String.join _ = String.join _
    rw [horig]

/-- Witness for C9 at a concrete store holding one style whose chain is
the bold fragment. -/
theorem style_copy_deep_witness :
    render (Style.italic (newStyleFrom [["\x1b[1m"]] ⟨0⟩).1
          (newStyleFrom [["\x1b[1m"]] ⟨0⟩).2).1
        (Style.italic (newStyleFrom [["\x1b[1m"]] ⟨0⟩).1
          (newStyleFrom [["\x1b[1m"]] ⟨0⟩).2).2 =
      render [["\x1b[1m"]] ⟨0⟩ ++ "\x1b[3m" ∧
    getChain (Style.italic (newStyleFrom [["\x1b[1m"]] ⟨0⟩).1
        (newStyleFrom [["\x1b[1m"]] ⟨0⟩).2).1 ⟨0⟩ = getChain [["\x1b[1m"]] ⟨0⟩ ∧
    render (Style.italic (newStyleFrom [["\x1b[1m"]] ⟨0⟩).1
        (newStyleFrom [["\x1b[1m"]] ⟨0⟩).2).1 ⟨0⟩ = render [["\x1b[1m"]] ⟨0⟩ :=
  style_copy_deep [["\x1b[1m"]] ⟨0⟩ (by decide)
